import Mathlib

/-!
Verification development for the plugin-manager core of a plugin SDK.

The Python source is shallowly embedded:
* Python `str` is modelled as `List Char` (`Str`).
* Python `dict` (insertion ordered, unique keys) is modelled as an
  association list with in-place update (`dictSet`) and key removal
  (`eraseKey`), mirroring `d[k] = v` and `del d[k]`.
* JSON values decoded by `json.loads` are modelled by the inductive `Json`;
  a settings / blocklist file on disk is a `FileContent` (missing,
  unreadable (OSError), invalid JSON, or a decoded value).
* Exceptions are modelled with `Except`; an operation that mutates adapter
  state returns the post state together with the `Except` outcome, where an
  error outcome carries the state unchanged exactly when the Python code
  raises before its (single, terminal) write.
-/

/-- Python strings are sequences of characters. -/
abbrev Str := List Char

/-- Embed a Lean string literal as a `Str`. -/
def str (s : String) : Str := s.toList

deriving instance DecidableEq for Except

section AssocList

variable {κ α : Type} [DecidableEq κ]

/-- `d.get(k)` / `d[k]` on a Python dict: first matching key (dicts built by
the embedded code never carry duplicate keys, so first-match is exact). -/
def lookupKey (l : List (κ × α)) (k : κ) : Option α :=
  match l with
  | [] => none
  | kv :: rest => if kv.1 = k then some kv.2 else lookupKey rest k

/-- `k in d` on a Python dict. -/
def containsKey (l : List (κ × α)) (k : κ) : Bool :=
  (lookupKey l k).isSome

/-- `d[k] = v` on a Python dict: update in place if the key exists
(keeping its position), otherwise append at the end. -/
def dictSet (l : List (κ × α)) (k : κ) (v : α) : List (κ × α) :=
  if containsKey l k then
    l.map (fun kv => if kv.1 = k then (k, v) else kv)
  else
    l ++ [(k, v)]

/-- `del d[k]` on a Python dict. -/
def eraseKey (l : List (κ × α)) (k : κ) : List (κ × α) :=
  l.filter (fun kv => decide (kv.1 ≠ k))

end AssocList

/-! ## JSON values and file contents

`Json` models the Python values produced by `json.loads` (numbers are
modelled as integers; the manager never computes with them). `FileContent`
models what the adapters can encounter when reading a state file:
`missing` (`path.exists()` false), `unreadable` (an `OSError` on read),
`invalidJson` (a `json.JSONDecodeError`), or a decoded value. -/

inductive Json where
  | null : Json
  | bool (b : Bool) : Json
  | num (n : Int) : Json
  | str (s : Str) : Json
  | arr (elems : List Json) : Json
  | obj (fields : List (Str × Json)) : Json

/-- Python truthiness (`bool(v)`) of a JSON-decoded value. -/
def Json.truthy : Json → Bool
  | .null => false
  | .bool b => b
  | .num n => decide (n ≠ 0)
  | .str s => !s.isEmpty
  | .arr l => !l.isEmpty
  | .obj l => !l.isEmpty

/-- `isinstance(v, dict)` on a JSON-decoded value. -/
def Json.isObj : Json → Bool
  | .obj _ => true
  | _ => false

inductive FileContent where
  | missing : FileContent
  | unreadable : FileContent
  | invalidJson : FileContent
  | json (v : Json) : FileContent

/-- `_load_json(path, default)` (`manager/_adapters.py`): return the default
when the file does not exist, and on `json.JSONDecodeError` or `OSError`;
otherwise the decoded value. -/
def load_json (f : FileContent) (dflt : Json) : Json :=
  match f with
  | .missing => dflt
  | .unreadable => dflt
  | .invalidJson => dflt
  | .json v => v

/-- A scope's enabled-plugins ledger: `"plugin@marketplace"` key to enabled
boolean, insertion ordered (a Python `dict[str, bool]`). -/
abbrev Ledger := List (Str × Bool)

/-- `LocalFilesystemSettingsAdapter.get_enabled_plugins`: load the settings
file with default `{}`; if the result is not a dict, or its
`enabledPlugins` member is absent or not a dict, return `{}`; otherwise
return `{k: bool(v) for k, v in plugins.items()}`. -/
def get_enabled_plugins (f : FileContent) : Ledger :=
  match load_json f (.obj []) with
  | .obj fields =>
    match lookupKey fields (str "enabledPlugins") with
    | some (.obj pl) => pl.map (fun kv => (kv.1, kv.2.truthy))
    | _ => []
  | _ => []

/-- Encode a ledger back to JSON (`json.dumps` of a `dict[str, bool]`). -/
def encodeLedger (d : Ledger) : Json :=
  .obj (d.map (fun kv => (kv.1, .bool kv.2)))

/-- The `raw` variable of `set_enabled_plugins`: the re-loaded settings
file (default `{}`), replaced by `{}` when it is not a dict. -/
def rawFields (f : FileContent) : List (Str × Json) :=
  match load_json f (.obj []) with
  | .obj fields => fields
  | _ => []

/-- `LocalFilesystemSettingsAdapter.set_enabled_plugins`: re-load the raw
settings file, set its `enabledPlugins` member to the given data, and
atomically write the whole object back. The result is the new file
content. -/
def set_enabled_plugins (f : FileContent) (d : Ledger) : FileContent :=
  .json (.obj (dictSet (rawFields f) (str "enabledPlugins") (encodeLedger d)))

/-- Read one top-level member of a settings artifact (none when the file is
missing or not a JSON object). Used to state sibling-key preservation. -/
def settingsKeyGet (f : FileContent) (k : Str) : Option Json :=
  match f with
  | .json (.obj fields) => lookupKey fields k
  | _ => none

/-! ## Blocklist file -/

/-- `BlocklistPlugin` (`models/state.py`): one blocked plugin. Timestamps
are kept as their raw strings (the manager never interprets them). -/
structure BlocklistPlugin where
  plugin : Str
  added_at : Str
  reason : Option Str
  text : Option Str
deriving DecidableEq

/-- `BlocklistFile` (`models/state.py`): root of `blocklist.json`. -/
structure BlocklistFile where
  fetchedAt : Str
  plugins : List BlocklistPlugin
deriving DecidableEq

/-- `_default_blocklist()` (`manager/_adapters.py`): epoch timestamp, no
blocked plugins. -/
def default_blocklist : BlocklistFile :=
  { fetchedAt := str "1970-01-01T00:00:00Z", plugins := [] }

/-- A JSON value acceptable for a pydantic `datetime` field, kept as raw
text. Pydantic's lax mode accepts datetime strings and numeric Unix
timestamps; string parsing and numeric range checks are abstracted
liberally — every string and every number is accepted — so the set of
values this model REJECTS (booleans, `null`, arrays, objects) is a subset
of what pydantic rejects, keeping the model's validation-failure set an
under-approximation of the program's. The manager never reads these
timestamp values. -/
def datetimeOfJson : Json → Option Str
  | .str s => some s
  | .num n => some (str (toString n))
  | _ => none

/-- Validation of one element of `plugins` against the `BlocklistPlugin`
model: `plugin` a required string, `added_at` a required datetime (string
or numeric timestamp, see `datetimeOfJson`); `reason`/`text` optional
strings accepting `null` or absence. Extra fields are allowed
(`extra="allow"`). -/
def validateBlocklistPlugin (v : Json) : Option BlocklistPlugin :=
  match v with
  | .obj fields =>
    match lookupKey fields (str "plugin"),
        (lookupKey fields (str "added_at")).bind datetimeOfJson with
    | some (.str p), some a =>
      let reason : Option (Option Str) :=
        match lookupKey fields (str "reason") with
        | some (.str r) => some (some r)
        | some .null => some none
        | none => some none
        | some _ => none
      let text : Option (Option Str) :=
        match lookupKey fields (str "text") with
        | some (.str t) => some (some t)
        | some .null => some none
        | none => some none
        | some _ => none
      match reason, text with
      | some r, some t => some { plugin := p, added_at := a, reason := r, text := t }
      | _, _ => none
    | _, _ => none
  | _ => none

/-- Validation of a decoded object against the `BlocklistFile` model
(`BlocklistFile.model_validate`): `fetchedAt` required — readable under
its alias key `"fetchedAt"` or, via `populate_by_name=True`, the field
name `"fetched_at"` (the alias wins when both are present) — as a
datetime (string or numeric timestamp); `plugins` an optional list
(default `[]`) of valid `BlocklistPlugin` objects. -/
def validateBlocklist (fields : List (Str × Json)) : Option BlocklistFile :=
  match (match lookupKey fields (str "fetchedAt") with
         | some v => some v
         | none => lookupKey fields (str "fetched_at")).bind datetimeOfJson with
  | some fa =>
    match lookupKey fields (str "plugins") with
    | none => some { fetchedAt := fa, plugins := [] }
    | some (.arr elems) =>
      match elems.mapM validateBlocklistPlugin with
      | some ps => some { fetchedAt := fa, plugins := ps }
      | none => none
    | some _ => none
  | _ => none

/-- `LocalFilesystemMarketplaceAdapter.get_blocklist`: load the blocklist
file with the epoch default; if the result is not a dict, or model
validation raises, return `_default_blocklist()`. -/
def get_blocklist_file (f : FileContent) : BlocklistFile :=
  match load_json f (.obj [(str "fetchedAt", .str (str "1970-01-01T00:00:00Z")),
                           (str "plugins", .arr [])]) with
  | .obj fields => (validateBlocklist fields).getD default_blocklist
  | _ => default_blocklist

/-! ## Marketplace manifest model

`PluginSource` combines the source forms of `models/marketplace.py`: a bare
relative-path string, or one of the typed sources
(github/url/npm/pip/http). `PluginEntry` keeps the fields the manager
consults (`name`, `source`, `version`); the remaining manifest metadata
(description, author, keywords, component paths, ...) is never read by the
manager and is omitted. -/

inductive PluginSource where
  | path (p : Str) : PluginSource
  | github (repo : Str) (ref sha : Option Str) : PluginSource
  | url (u : Str) (ref sha : Option Str) : PluginSource
  | npm (package : Str) (version registry : Option Str) : PluginSource
  | pip (package : Str) (version registry : Option Str) : PluginSource
  | http (u : Str) : PluginSource
deriving DecidableEq

def PluginSource.isGithub : PluginSource → Bool
  | .github _ _ _ => true
  | _ => false

/-- `PluginEntry` (`models/marketplace.py`), restricted to the fields the
manager reads. -/
structure PluginEntry where
  name : Str
  source : PluginSource
  version : Option Str
deriving DecidableEq

/-- `MarketplaceManifest` (`models/marketplace.py`), restricted to the
fields the manager reads. -/
structure MarketplaceManifest where
  name : Str
  plugins : List PluginEntry
deriving DecidableEq

/-! ## Source string auto-detection (`fetchers/_dispatcher.py`) -/

/-- One character of the class `[\w.-]` of `_GITHUB_SHORTHAND`
(`\w` is modelled over ASCII word characters; the embedded inputs are
ASCII). -/
def isWordDotDash (c : Char) : Bool :=
  c.isAlphanum || c = '_' || c = '.' || c = '-'

/-- `_GITHUB_SHORTHAND.match(s)`: the regex `^[\w.-]+/[\w.-]+$`. A Python
`$` (without MULTILINE) also matches just before one trailing newline, so
one trailing `'\n'` is stripped first. -/
def matchGithubShorthand (s : Str) : Bool :=
  let t : Str :=
    match s.reverse with
    | '\n' :: rest => rest.reverse
    | _ => s
  let a := t.takeWhile isWordDotDash
  match t.drop a.length with
  | '/' :: b => !a.isEmpty && !b.isEmpty && b.all isWordDotDash
  | _ => false

/-- `s.endswith(".git")`. -/
def endsWithGit (s : Str) : Bool :=
  (str ".git").isSuffixOf s

/-- `_detect` (`fetchers/_dispatcher.py`): `.git`-suffixed strings become a
`URLSource`, then GitHub shorthand becomes a `GitHubSource`, anything else
an `HTTPSource`. -/
def detect (s : Str) : PluginSource :=
  if endsWithGit s then .url s none none
  else if matchGithubShorthand s then .github s none none
  else .http s

/-! ## `key.rsplit("@", 1)` -/

/-- Split at the last occurrence of `c`: `some (before, after)` when `c`
occurs in `s`, `none` otherwise (the `"@" not in key` case). -/
def rsplitLast (c : Char) : Str → Option (Str × Str)
  | [] => none
  | x :: xs =>
    match rsplitLast c xs with
    | some (a, b) => some (x :: a, b)
    | none => if x = c then some ([], xs) else none

/-! ## Manager state

The adapters behind a `PluginManager`:
* the marketplace registry (`known_marketplaces.json`) — only membership of
  a marketplace name is ever consulted by the operations verified here, so
  the registry is kept as the list of known names;
* the content cache — per marketplace name, the cached tree: its parsed
  manifest (`none` models a missing/invalid `marketplace.json`, which
  `load_marketplace` reports as a `LoadError`) and the on-disk plugin
  directories consulted by `check_update`;
* the blocklist;
* the plugin cache — the set of `(marketplace, plugin)` pairs for which a
  plugin cache directory exists;
* the per-scope settings stores, in configuration (dict insertion) order,
  each holding the content of that scope's settings file. -/

inductive Scope where
  | user : Scope
  | project : Scope
  | localScope : Scope
deriving DecidableEq

/-- `.claude-plugin/plugin.json` inside a cached plugin directory: present
or not; when present, its decoded `version` member (`data.get("version")`),
kept when it is a string. -/
structure PluginDirInfo where
  pluginJson : Option (Option Str)
deriving DecidableEq

/-- A marketplace's cached tree, as consulted by `load_marketplace` and by
`check_update`'s on-disk version lookup. -/
structure CacheTree where
  manifest : Option MarketplaceManifest
  pluginsSub : List (Str × PluginDirInfo)
  externalSub : List (Str × PluginDirInfo)
  rootInfo : PluginDirInfo
deriving DecidableEq

structure ManagerState where
  registry : List Str
  cache : List (Str × CacheTree)
  blocklist : BlocklistFile
  pluginCache : List (Str × Str)
  settings : List (Scope × FileContent)

/-- The errors raised by the manager (`errors.py`), with the data each
carries. `fetchError` exists in the taxonomy (`FetchError`) but is never
raised by the embedded install path — the source's `install` performs no
plugin fetch at all. -/
inductive MgrError where
  | pluginBlocked (key : Str) (reason : Option Str) : MgrError
  | marketplaceNotFound (name : Str) : MgrError
  | pluginNotFound (name marketplace : Str) : MgrError
  | alreadyInstalled (key : Str) : MgrError
  | notInstalled (key : Str) : MgrError
  | scopeNotConfigured (scope : Scope) : MgrError
  | loadError (marketplace : Str) : MgrError
  | fetchError (message : Str) : MgrError
deriving DecidableEq

/-- An operation's outcome: the post state of all stores, and the value or
raised error. An error carries the pre state unchanged exactly when the
code raises before its write (every embedded operation writes at most once,
as its final step). -/
abbrev MgrResult (α : Type) := ManagerState × Except MgrError α

/-- `_plugin_key`: `f"{plugin_name}@{marketplace}"`. -/
def plugin_key (plugin_name marketplace : Str) : Str :=
  plugin_name ++ '@' :: marketplace

/-- `InstalledPlugin` (`manager/_manager.py`). -/
structure InstalledPlugin where
  name : Str
  marketplace : Str
  enabled : Bool
  scope : Scope
deriving DecidableEq

/-- `UpdateCheckResult` (`manager/_manager.py`). -/
structure UpdateCheckResult where
  plugin_name : Str
  marketplace : Str
  current_version : Option Str
  latest_version : Option Str
  has_update : Bool
deriving DecidableEq

/-- `PluginManager._settings_for`: the store configured for a scope. -/
def settings_for (st : ManagerState) (sc : Scope) : Option FileContent :=
  lookupKey st.settings sc

/-- Replace the settings file of one scope (the effect of that scope's
adapter `set_enabled_plugins`). -/
def setScopeFile (st : ManagerState) (sc : Scope) (f : FileContent) :
    ManagerState :=
  { st with settings := dictSet st.settings sc f }

/-- `PluginManager.is_blocked`: some blocklist entry's `plugin` equals the
key. -/
def is_blocked (st : ManagerState) (plugin_name marketplace : Str) : Bool :=
  st.blocklist.plugins.any
    (fun e => decide (e.plugin = plugin_key plugin_name marketplace))

/-- `PluginManager.get_marketplace_manifest`: `MarketplaceNotFound` when the
registry has no entry; otherwise load the manifest from the cached copy
(`LoadError` when the cached tree or its manifest is missing/invalid). -/
def get_marketplace_manifest (st : ManagerState) (name : Str) :
    Except MgrError MarketplaceManifest :=
  if decide (name ∈ st.registry) then
    match lookupKey st.cache name with
    | some t =>
      match t.manifest with
      | some man => .ok man
      | none => .error (.loadError name)
    | none => .error (.loadError name)
  else
    .error (.marketplaceNotFound name)

/-- `PluginManager.install` (`manager/_manager.py`, lines 170–190):
blocklist check, registry check, manifest membership check, scope check,
already-installed check, then write `key = True` into the scope's ledger.
The source performs no plugin fetch and no plugin-cache write. -/
def install (st : ManagerState) (plugin_name marketplace : Str)
    (scope : Scope) : MgrResult Unit :=
  let key := plugin_key plugin_name marketplace
  if is_blocked st plugin_name marketplace then
    (st, .error (.pluginBlocked key none))
  else if !decide (marketplace ∈ st.registry) then
    (st, .error (.marketplaceNotFound marketplace))
  else
    match get_marketplace_manifest st marketplace with
    | .error e => (st, .error e)
    | .ok manifest =>
      if !manifest.plugins.any (fun p => decide (p.name = plugin_name)) then
        (st, .error (.pluginNotFound plugin_name marketplace))
      else
        match settings_for st scope with
        | none => (st, .error (.scopeNotConfigured scope))
        | some f =>
          let plugins := get_enabled_plugins f
          if containsKey plugins key then
            (st, .error (.alreadyInstalled key))
          else
            (setScopeFile st scope
              (set_enabled_plugins f (dictSet plugins key true)), .ok ())

/-- `PluginManager.uninstall` (lines 192–204): the key must exist in that
scope's ledger, else `NotInstalled`; delete it and write the ledger back.
The source deletes nothing from the plugin cache. -/
def uninstall (st : ManagerState) (plugin_name marketplace : Str)
    (scope : Scope) : MgrResult Unit :=
  let key := plugin_key plugin_name marketplace
  match settings_for st scope with
  | none => (st, .error (.scopeNotConfigured scope))
  | some f =>
    let plugins := get_enabled_plugins f
    if !containsKey plugins key then
      (st, .error (.notInstalled key))
    else
      (setScopeFile st scope (set_enabled_plugins f (eraseKey plugins key)),
        .ok ())

/-- `PluginManager.enable` (lines 206–218). -/
def enable (st : ManagerState) (plugin_name marketplace : Str)
    (scope : Scope) : MgrResult Unit :=
  let key := plugin_key plugin_name marketplace
  match settings_for st scope with
  | none => (st, .error (.scopeNotConfigured scope))
  | some f =>
    let plugins := get_enabled_plugins f
    if !containsKey plugins key then
      (st, .error (.notInstalled key))
    else
      (setScopeFile st scope (set_enabled_plugins f (dictSet plugins key true)),
        .ok ())

/-- `PluginManager.disable` (lines 220–232). -/
def disable (st : ManagerState) (plugin_name marketplace : Str)
    (scope : Scope) : MgrResult Unit :=
  let key := plugin_key plugin_name marketplace
  match settings_for st scope with
  | none => (st, .error (.scopeNotConfigured scope))
  | some f =>
    let plugins := get_enabled_plugins f
    if !containsKey plugins key then
      (st, .error (.notInstalled key))
    else
      (setScopeFile st scope (set_enabled_plugins f (dictSet plugins key false)),
        .ok ())

/-- `PluginManager.list_installed` (lines 234–251): for `"all"` (`none`)
iterate the configured scopes in order; skip keys without `"@"`; split each
remaining key on its last `"@"` via `key.rsplit("@", 1)`. -/
def list_installed (st : ManagerState) (scope : Option Scope) :
    List InstalledPlugin :=
  let scopes : List Scope :=
    match scope with
    | none => st.settings.map Prod.fst
    | some sc => [sc]
  scopes.flatMap (fun sc =>
    match lookupKey st.settings sc with
    | none => []
    | some f =>
      (get_enabled_plugins f).filterMap (fun kv =>
        if decide ('@' ∈ kv.1) then
          (rsplitLast '@' kv.1).map (fun nm =>
            { name := nm.1, marketplace := nm.2, enabled := kv.2, scope := sc })
        else
          none))

/-- `PluginManager.is_installed`: any configured scope holds the key. -/
def is_installed (st : ManagerState) (plugin_name marketplace : Str) : Bool :=
  st.settings.any (fun scf =>
    containsKey (get_enabled_plugins scf.2) (plugin_key plugin_name marketplace))

/-- The on-disk plugin directory `check_update` consults: `plugins/<name>`
if it exists, else `external_plugins/<name>`, else the marketplace cache
root. -/
def pluginDirFor (t : CacheTree) (name : Str) : PluginDirInfo :=
  match lookupKey t.pluginsSub name with
  | some d => d
  | none =>
    match lookupKey t.externalSub name with
    | some d => d
    | none => t.rootInfo

/-- The `current` version `check_update` reads from disk: the `version`
member of `.claude-plugin/plugin.json` under the plugin's directory, `none`
when that file does not exist. -/
def currentVersionOnDisk (t : CacheTree) (name : Str) : Option Str :=
  match (pluginDirFor t name).pluginJson with
  | none => none
  | some v => v

/-- The tail of `check_update` (lines 300–315): `has_update` is false when
either version is `None`, else the raw string inequality
`latest != current`. -/
def mkUpdateResult (plugin_name marketplace : Str) (current latest : Option Str) :
    UpdateCheckResult :=
  match current, latest with
  | some c, some l =>
    { plugin_name := plugin_name, marketplace := marketplace,
      current_version := some c, latest_version := some l,
      has_update := decide (l ≠ c) }
  | _, _ =>
    { plugin_name := plugin_name, marketplace := marketplace,
      current_version := current, latest_version := latest,
      has_update := false }

/-- `PluginManager.check_update` (lines 272–315). `latest` is the manifest
entry's `version`; `current` is read from disk only when some record of
`list_installed()` matches the pair. -/
def check_update (st : ManagerState) (plugin_name marketplace : Str) :
    Except MgrError UpdateCheckResult :=
  match get_marketplace_manifest st marketplace with
  | .error e => .error e
  | .ok manifest =>
    match manifest.plugins.find? (fun p => decide (p.name = plugin_name)) with
    | none =>
      .ok { plugin_name := plugin_name, marketplace := marketplace,
            current_version := none, latest_version := none,
            has_update := false }
    | some entry =>
      let current : Option Str :=
        if (list_installed st none).any (fun ip =>
            decide (ip.name = plugin_name) && decide (ip.marketplace = marketplace)) then
          match lookupKey st.cache marketplace with
          | some t => currentVersionOnDisk t plugin_name
          | none => none
        else
          none
      .ok (mkUpdateResult plugin_name marketplace current entry.version)

/-! ## Frame lemmas for the single-scope write -/

/-- The scope's ledger as an observer: what `get_enabled_plugins` returns
for that scope's settings store (`none` when the scope is unconfigured). -/
def scopeLedger (st : ManagerState) (sc : Scope) : Option Ledger :=
  (settings_for st sc).map get_enabled_plugins

/-! ## Example fixture

A state mirroring the repository's test fixture: one registered marketplace
whose manifest offers a relative-path plugin, a github-sourced plugin, and
npm/pip-sourced plugins; one configured scope (`user`) whose settings file
is an empty JSON object; empty blocklist; empty plugin cache. -/

def exMarketplaceName : Str := str "example-marketplace"

def exManifest : MarketplaceManifest :=
  { name := exMarketplaceName,
    plugins :=
      [ { name := str "local-plugin",
          source := .path (str "./plugins/local-plugin"), version := none },
        { name := str "github-plugin",
          source := .github (str "owner/example-plugin") none none,
          version := none },
        { name := str "npm-plugin",
          source := .npm (str "example-npm-plugin") none none,
          version := none },
        { name := str "pip-plugin",
          source := .pip (str "example-pip-plugin") none none,
          version := none } ] }

def exTree : CacheTree :=
  { manifest := some exManifest, pluginsSub := [], externalSub := [],
    rootInfo := { pluginJson := none } }

def st0 : ManagerState :=
  { registry := [exMarketplaceName],
    cache := [(exMarketplaceName, exTree)],
    blocklist := default_blocklist,
    pluginCache := [],
    settings := [(Scope.user, .json (.obj []))] }

def exReason : Str := str "malware"

/-- `st0` with `local-plugin@example-marketplace` blocklisted, with a
reason. -/
def stBlocked : ManagerState :=
  { st0 with blocklist :=
      { fetchedAt := str "1970-01-01T00:00:00Z",
        plugins := [{ plugin := str "local-plugin@example-marketplace",
                      added_at := str "1970-01-01T00:00:00Z",
                      reason := some exReason, text := none }] } }

/-! ## Inversion of a successful install -/

/-- A tag for the four ledger-writing manager operations, used to state
properties uniformly over install/uninstall/enable/disable. -/
inductive MgrOp where
  | installOp : MgrOp
  | uninstallOp : MgrOp
  | enableOp : MgrOp
  | disableOp : MgrOp
deriving DecidableEq

def runOp : MgrOp → ManagerState → Str → Str → Scope → MgrResult Unit
  | .installOp => install
  | .uninstallOp => uninstall
  | .enableOp => enable
  | .disableOp => disable

/-- The `list_installed` records contributed by one scope's ledger
(the body of the source's inner loop). -/
def scopeRecords (sc : Scope) (f : FileContent) : List InstalledPlugin :=
  (get_enabled_plugins f).filterMap (fun kv =>
    if decide ('@' ∈ kv.1) then
      (rsplitLast '@' kv.1).map (fun nm =>
        { name := nm.1, marketplace := nm.2, enabled := kv.2, scope := sc })
    else
      none)

/-- A settings file that is missing, unreadable, not valid JSON, not a JSON
object, or whose `enabledPlugins` member is not an object. -/
def badSettingsFile (f : FileContent) : Prop :=
  f = .missing ∨ f = .unreadable ∨ f = .invalidJson ∨
  (∃ v, f = .json v ∧ v.isObj = false) ∨
  (∃ fields v, f = .json (.obj fields) ∧
    lookupKey fields (str "enabledPlugins") = some v ∧ v.isObj = false)

/-- A blocklist file that is missing, unreadable, not valid JSON, not a
JSON object, or that fails `BlocklistFile` validation. -/
def badBlocklistFile (g : FileContent) : Prop :=
  g = .missing ∨ g = .unreadable ∨ g = .invalidJson ∨
  (∃ v, g = .json v ∧ v.isObj = false) ∨
  (∃ fields, g = .json (.obj fields) ∧ validateBlocklist fields = none)

/-- `st0` with `local-plugin@example-marketplace` already installed
(enabled) in the user scope. -/
def stInstalled : ManagerState :=
  { st0 with settings := [(Scope.user, FileContent.json (Json.obj
      [(str "enabledPlugins", Json.obj
        [(str "local-plugin@example-marketplace", Json.bool true)])]))] }

/-- `st0` with a user settings file that carries an unrelated sibling key
(`theme`) next to `enabledPlugins`. -/
def stSib : ManagerState :=
  { st0 with settings := [(Scope.user, FileContent.json (Json.obj
      [ (str "theme", Json.str (str "dark")),
        (str "enabledPlugins", Json.obj []) ]))] }

/-- `st0` with one user-scope ledger holding a key with two `@` separators
and a key with none. -/
def stMulti : ManagerState :=
  { st0 with settings := [(Scope.user, FileContent.json (Json.obj
      [(str "enabledPlugins", Json.obj
        [ (str "a@b@c", Json.bool true),
          (str "noseparator", Json.bool false) ])]))] }

/-- The result `check_update` returns on `st0` for `local-plugin`: the
manifest entry exists but carries no version, and nothing is installed. -/
def exUpdateResult : UpdateCheckResult :=
  { plugin_name := str "local-plugin", marketplace := exMarketplaceName,
    current_version := none, latest_version := none, has_update := false }

/-! ## Theorems -/

section AssocListLemmas

variable {κ α : Type} [DecidableEq κ]

theorem lookupKey_nil (k : κ) : lookupKey ([] : List (κ × α)) k = none := rfl

theorem lookupKey_append (l₁ l₂ : List (κ × α)) (k : κ) :
    lookupKey (l₁ ++ l₂) k =
      (lookupKey l₁ k).orElse (fun _ => lookupKey l₂ k) := by
  induction l₁ with
  | nil => simp [lookupKey, Option.orElse]
  | cons kv rest ih =>
    by_cases h : kv.1 = k <;> simp [lookupKey, h, ih, Option.orElse]

theorem lookupKey_dictSet_self (l : List (κ × α)) (k : κ) (v : α) :
    lookupKey (dictSet l k v) k = some v := by
  unfold dictSet
  by_cases h : containsKey l k = true
  · simp only [h, if_true]
    unfold containsKey at h
    induction l with
    | nil => simp [lookupKey] at h
    | cons kv rest ih =>
      by_cases hk : kv.1 = k
      · simp [lookupKey, hk]
      · simp only [lookupKey, hk, if_neg] at h
        simp [lookupKey, hk, ih h]
  · simp only [h]
    rw [if_neg (by simp [h])]
    rw [lookupKey_append]
    unfold containsKey at h
    cases hl : lookupKey l k with
    | some v' => simp [hl] at h
    | none => simp [hl, lookupKey, Option.orElse]

theorem lookupKey_map_replace_ne (l : List (κ × α)) (k k' : κ) (v : α)
    (h : k' ≠ k) :
    lookupKey (l.map (fun kv => if kv.1 = k then (k, v) else kv)) k'
      = lookupKey l k' := by
  induction l with
  | nil => rfl
  | cons kv rest ih =>
    by_cases hk : kv.1 = k
    · have h1 : ¬(k = k') := fun he => h he.symm
      have h2 : ¬(kv.1 = k') := by rw [hk]; exact h1
      simp [lookupKey, hk, h1, h2, ih]
    · by_cases hk' : kv.1 = k'
      · simp [lookupKey, hk, hk', h]
      · simp [lookupKey, hk, hk', ih]

theorem lookupKey_dictSet_ne (l : List (κ × α)) (k k' : κ) (v : α)
    (h : k' ≠ k) : lookupKey (dictSet l k v) k' = lookupKey l k' := by
  unfold dictSet
  by_cases hc : containsKey l k = true
  · rw [if_pos hc]
    exact lookupKey_map_replace_ne l k k' v h
  · rw [if_neg (by simp [hc]), lookupKey_append]
    have hone : lookupKey [(k, v)] k' = none := by
      simp only [lookupKey]
      rw [if_neg (fun he => h he.symm)]
    cases hl : lookupKey l k' with
    | some v' => rfl
    | none => simpa [Option.orElse] using hone

theorem containsKey_dictSet_self (l : List (κ × α)) (k : κ) (v : α) :
    containsKey (dictSet l k v) k = true := by
  simp [containsKey, lookupKey_dictSet_self]

theorem dictSet_not_contains (l : List (κ × α)) (k : κ) (v : α)
    (h : containsKey l k = false) : dictSet l k v = l ++ [(k, v)] := by
  unfold dictSet
  rw [if_neg (by simp [h])]

theorem containsKey_eq_false_iff (l : List (κ × α)) (k : κ) :
    containsKey l k = false ↔ ∀ kv ∈ l, kv.1 ≠ k := by
  induction l with
  | nil => simp [containsKey, lookupKey]
  | cons kv rest ih =>
    by_cases hk : kv.1 = k
    · simp [containsKey, lookupKey, hk]
    · simp only [containsKey, lookupKey, if_neg hk, List.mem_cons] at ih ⊢
      constructor
      · intro h x hx
        rcases hx with hx | hx
        · rw [hx]; exact hk
        · exact ih.mp h x hx
      · intro h
        exact ih.mpr (fun x hx => h x (Or.inr hx))

theorem map_replace_of_forall_ne (l : List (κ × α)) (k : κ) (v : α)
    (h : ∀ kv ∈ l, kv.1 ≠ k) :
    l.map (fun kv => if kv.1 = k then (k, v) else kv) = l := by
  induction l with
  | nil => rfl
  | cons kv rest ih =>
    simp only [List.map_cons, if_neg (h kv (by simp)), List.cons.injEq, true_and]
    exact ih (fun x hx => h x (List.mem_cons_of_mem _ hx))

theorem map_replace_of_not_contains (l : List (κ × α)) (k : κ) (v : α)
    (h : containsKey l k = false) :
    l.map (fun kv => if kv.1 = k then (k, v) else kv) = l :=
  map_replace_of_forall_ne l k v ((containsKey_eq_false_iff l k).mp h)

theorem map_replace_idem (l : List (κ × α)) (k : κ) (v : α) :
    (l.map (fun kv => if kv.1 = k then (k, v) else kv)).map
        (fun kv => if kv.1 = k then (k, v) else kv)
      = l.map (fun kv => if kv.1 = k then (k, v) else kv) := by
  induction l with
  | nil => rfl
  | cons kv rest ih =>
    by_cases hk : kv.1 = k <;> simp [hk, ih]

theorem containsKey_map_replace (l : List (κ × α)) (k : κ) (v : α) :
    containsKey (l.map (fun kv => if kv.1 = k then (k, v) else kv)) k
      = containsKey l k := by
  induction l with
  | nil => rfl
  | cons kv rest ih =>
    by_cases hk : kv.1 = k
    · simp [containsKey, lookupKey, hk]
    · simpa [containsKey, lookupKey, hk] using ih

/-- Writing the same value to the same key twice is the same as writing it
once (Python `d[k] = v; d[k] = v`). -/
theorem dictSet_dictSet_same (l : List (κ × α)) (k : κ) (v : α) :
    dictSet (dictSet l k v) k v = dictSet l k v := by
  by_cases hc : containsKey l k = true
  · unfold dictSet
    rw [if_pos hc, if_pos (by rw [containsKey_map_replace]; exact hc)]
    exact map_replace_idem l k v
  · rw [dictSet_not_contains l k v (by simpa using hc)]
    unfold dictSet
    rw [if_pos]
    · rw [List.map_append, map_replace_of_not_contains l k v (by simpa using hc)]
      simp
    · unfold containsKey
      rw [lookupKey_append]
      cases hl : lookupKey l k with
      | some v' => simp [containsKey, hl] at hc
      | none => simp [hl, lookupKey, Option.orElse]

theorem eraseKey_append_single (l : List (κ × α)) (k : κ) (v : α) :
    eraseKey (l ++ [(k, v)]) k = eraseKey l k := by
  simp [eraseKey]

theorem eraseKey_of_not_contains (l : List (κ × α)) (k : κ)
    (h : containsKey l k = false) : eraseKey l k = l := by
  rw [eraseKey]
  apply List.filter_eq_self.mpr
  intro kv hkv
  simpa using (containsKey_eq_false_iff l k).mp h kv hkv

end AssocListLemmas

theorem ledger_roundtrip (d : Ledger) :
    (d.map (fun kv => (kv.1, Json.bool kv.2))).map
        (fun kv => (kv.1, kv.2.truthy)) = d := by
  induction d with
  | nil => rfl
  | cons kv rest ih =>
    simp only [List.map_cons]
    rw [ih]
    rfl

/-- Reading back the ledger just written: `get_enabled_plugins` after
`set_enabled_plugins` returns exactly the written data. -/
theorem get_enabled_plugins_set (f : FileContent) (d : Ledger) :
    get_enabled_plugins (set_enabled_plugins f d) = d := by
  show (match lookupKey (dictSet (rawFields f) (str "enabledPlugins")
        (encodeLedger d)) (str "enabledPlugins") with
    | some (.obj pl) => pl.map (fun kv => (kv.1, kv.2.truthy))
    | _ => []) = d
  rw [lookupKey_dictSet_self]
  exact ledger_roundtrip d

/-- Writing the ledger leaves every other top-level member of the settings
artifact unchanged. -/
theorem settingsKeyGet_set_enabled_plugins (f : FileContent) (d : Ledger)
    (k : Str) (hk : k ≠ str "enabledPlugins") :
    settingsKeyGet (set_enabled_plugins f d) k = settingsKeyGet f k := by
  show lookupKey (dictSet (rawFields f) (str "enabledPlugins")
        (encodeLedger d)) k = settingsKeyGet f k
  rw [lookupKey_dictSet_ne _ _ _ _ hk]
  match f with
  | .missing => rfl
  | .unreadable => rfl
  | .invalidJson => rfl
  | .json (.obj fields) => rfl
  | .json .null => rfl
  | .json (.bool b) => rfl
  | .json (.num n) => rfl
  | .json (.str s) => rfl
  | .json (.arr l) => rfl

theorem rsplitLast_eq_none_iff (c : Char) (s : Str) :
    rsplitLast c s = none ↔ c ∉ s := by
  induction s with
  | nil => simp [rsplitLast]
  | cons x xs ih =>
    rw [rsplitLast]
    cases h : rsplitLast c xs with
    | some ab =>
      have hmem : c ∈ xs := by
        by_contra hc
        rw [ih.mpr hc] at h
        exact Option.noConfusion h
      constructor
      · intro hnone
        exact absurd hnone (by simp)
      · intro hnot
        exact absurd (List.mem_cons_of_mem x hmem) hnot
    | none =>
      have hxs : c ∉ xs := ih.mp h
      by_cases hx : x = c
      · rw [if_pos hx]
        constructor
        · intro hnone
          exact absurd hnone (by simp)
        · intro hnot
          exfalso
          apply hnot
          subst hx
          exact List.mem_cons_self x xs
      · rw [if_neg hx]
        simp only [List.mem_cons]
        constructor
        · intro _ hmem
          rcases hmem with hcx | hcxs
          · exact hx hcx.symm
          · exact hxs hcxs
        · intro _
          trivial

theorem rsplitLast_of_not_mem (c : Char) (s : Str) (h : c ∉ s) :
    rsplitLast c s = none := (rsplitLast_eq_none_iff c s).mpr h

/-- `rsplit` splits at the LAST separator: when `c` does not occur in `b`,
`a ++ c :: b` splits into `(a, b)`. -/
theorem rsplitLast_append (c : Char) (a b : Str) (hb : c ∉ b) :
    rsplitLast c (a ++ c :: b) = some (a, b) := by
  induction a with
  | nil => simp [rsplitLast, rsplitLast_of_not_mem c b hb]
  | cons x xs ih => simp [rsplitLast, ih]

theorem rsplitLast_eq_some (c : Char) (s a b : Str)
    (h : rsplitLast c s = some (a, b)) : s = a ++ c :: b ∧ c ∉ b := by
  induction s generalizing a b with
  | nil => simp [rsplitLast] at h
  | cons x xs ih =>
    rw [rsplitLast] at h
    cases h' : rsplitLast c xs with
    | some ab =>
      rw [h'] at h
      cases ab with
      | mk a' b' =>
        simp only [Option.some.injEq, Prod.mk.injEq] at h
        obtain ⟨ha, hb⟩ := h
        obtain ⟨hs, hnb⟩ := ih a' b' h'
        subst hs
        rw [← ha, ← hb]
        exact ⟨rfl, hnb⟩
    | none =>
      rw [h'] at h
      by_cases hx : x = c
      · rw [if_pos hx] at h
        simp only [Option.some.injEq, Prod.mk.injEq] at h
        obtain ⟨ha, hb⟩ := h
        have hnb := (rsplitLast_eq_none_iff c xs).mp h'
        subst hx
        rw [← ha, ← hb]
        exact ⟨rfl, hnb⟩
      · rw [if_neg hx] at h
        exact absurd h (by simp)

theorem rsplitLast_isSome_iff (c : Char) (s : Str) :
    (rsplitLast c s).isSome = true ↔ c ∈ s := by
  constructor
  · intro h
    by_contra hc
    rw [rsplitLast_of_not_mem c s hc] at h
    exact Bool.noConfusion h
  · intro h
    cases hr : rsplitLast c s with
    | some ab => rfl
    | none => exact absurd h ((rsplitLast_eq_none_iff c s).mp hr)

theorem settings_for_setScopeFile_self (st : ManagerState) (sc : Scope)
    (f : FileContent) : settings_for (setScopeFile st sc f) sc = some f :=
  lookupKey_dictSet_self _ _ _

theorem settings_for_setScopeFile_ne (st : ManagerState) (sc sc' : Scope)
    (f : FileContent) (h : sc' ≠ sc) :
    settings_for (setScopeFile st sc f) sc' = settings_for st sc' :=
  lookupKey_dictSet_ne _ _ _ _ h

theorem setScopeFile_blocklist (st : ManagerState) (sc : Scope)
    (f : FileContent) : (setScopeFile st sc f).blocklist = st.blocklist := rfl

theorem setScopeFile_registry (st : ManagerState) (sc : Scope)
    (f : FileContent) : (setScopeFile st sc f).registry = st.registry := rfl

theorem setScopeFile_cache (st : ManagerState) (sc : Scope)
    (f : FileContent) : (setScopeFile st sc f).cache = st.cache := rfl

theorem setScopeFile_pluginCache (st : ManagerState) (sc : Scope)
    (f : FileContent) : (setScopeFile st sc f).pluginCache = st.pluginCache :=
  rfl

theorem install_ok_inv (st : ManagerState) (p m : Str) (sc : Scope)
    (h : (install st p m sc).2 = .ok ()) :
    is_blocked st p m = false ∧ m ∈ st.registry ∧
    (∃ man, get_marketplace_manifest st m = .ok man ∧
      man.plugins.any (fun q => decide (q.name = p)) = true) ∧
    ∃ f, settings_for st sc = some f ∧
      containsKey (get_enabled_plugins f) (plugin_key p m) = false ∧
      (install st p m sc).1
        = setScopeFile st sc (set_enabled_plugins f
            (dictSet (get_enabled_plugins f) (plugin_key p m) true)) := by
  by_cases hb : is_blocked st p m = true
  · simp [install, hb] at h
  · by_cases hm : m ∈ st.registry
    · cases hman : get_marketplace_manifest st m with
      | error e => simp [install, hb, hm, hman] at h
      | ok man =>
        by_cases hp : man.plugins.any (fun q => decide (q.name = p)) = true
        · cases hf : settings_for st sc with
          | none => simp [install, hb, hm, hman, hf, hp] at h
          | some f =>
            by_cases hk : containsKey (get_enabled_plugins f)
                (plugin_key p m) = true
            · simp [install, hb, hm, hman, hf, hp, hk] at h
            · refine ⟨by simpa using hb, hm, ⟨man, rfl, hp⟩, f, rfl,
                by simpa using hk, ?_⟩
              simp [install, hb, hm, hman, hf, hp, hk]
        · simp [install, hb, hm, hman, hp] at h
    · simp [install, hb, hm] at h

/-- Every ledger-writing operation either leaves every store unchanged (it
raised) or performs exactly one settings write in the requested scope. -/
theorem op_state_shape (op : MgrOp) (st : ManagerState) (p m : Str)
    (sc : Scope) :
    (runOp op st p m sc).1 = st ∨
    ∃ f d, settings_for st sc = some f ∧
      (runOp op st p m sc).1 = setScopeFile st sc (set_enabled_plugins f d) := by
  cases op with
  | installOp =>
    by_cases hb : is_blocked st p m = true
    · left; simp [runOp, install, hb]
    · by_cases hm : m ∈ st.registry
      · cases hman : get_marketplace_manifest st m with
        | error e => left; simp [runOp, install, hb, hm, hman]
        | ok man =>
          by_cases hp : man.plugins.any (fun q => decide (q.name = p)) = true
          · cases hf : settings_for st sc with
            | none => left; simp [runOp, install, hb, hm, hman, hf, hp]
            | some f =>
              by_cases hk : containsKey (get_enabled_plugins f)
                  (plugin_key p m) = true
              · left; simp [runOp, install, hb, hm, hman, hf, hp, hk]
              · right
                refine ⟨f, dictSet (get_enabled_plugins f) (plugin_key p m) true,
                  rfl, ?_⟩
                simp [runOp, install, hb, hm, hman, hf, hp, hk]
          · left; simp [runOp, install, hb, hm, hman, hp]
      · left; simp [runOp, install, hb, hm]
  | uninstallOp =>
    cases hf : settings_for st sc with
    | none => left; simp [runOp, uninstall, hf]
    | some f =>
      by_cases hk : containsKey (get_enabled_plugins f) (plugin_key p m) = true
      · right
        refine ⟨f, eraseKey (get_enabled_plugins f) (plugin_key p m), rfl, ?_⟩
        simp [runOp, uninstall, hf, hk]
      · left; simp [runOp, uninstall, hf, hk]
  | enableOp =>
    cases hf : settings_for st sc with
    | none => left; simp [runOp, enable, hf]
    | some f =>
      by_cases hk : containsKey (get_enabled_plugins f) (plugin_key p m) = true
      · right
        refine ⟨f, dictSet (get_enabled_plugins f) (plugin_key p m) true, rfl, ?_⟩
        simp [runOp, enable, hf, hk]
      · left; simp [runOp, enable, hf, hk]
  | disableOp =>
    cases hf : settings_for st sc with
    | none => left; simp [runOp, disable, hf]
    | some f =>
      by_cases hk : containsKey (get_enabled_plugins f) (plugin_key p m) = true
      · right
        refine ⟨f, dictSet (get_enabled_plugins f) (plugin_key p m) false, rfl, ?_⟩
        simp [runOp, disable, hf, hk]
      · left; simp [runOp, disable, hf, hk]

/-- C1 (amended): if the key `"<plugin>@<marketplace>"` appears in the
blocklist, `install` fails with `PluginBlocked` carrying the key — but with
no reason attached (the source raises `PluginBlockedError(key)` without the
entry's reason) — and writes nothing to any store; the check precedes the
registry, manifest, scope and already-installed checks, so it fires
whatever the rest of the state holds. -/
theorem c1_blocked_install (st : ManagerState) (p m : Str) (sc : Scope)
    (h : is_blocked st p m = true) :
    install st p m sc = (st, .error (.pluginBlocked (plugin_key p m) none)) := by
  simp [install, h]

theorem c1_blocked_install_witness :
    install stBlocked (str "local-plugin") exMarketplaceName Scope.user
      = (stBlocked, .error (.pluginBlocked
          (plugin_key (str "local-plugin") exMarketplaceName) none)) :=
  c1_blocked_install stBlocked (str "local-plugin") exMarketplaceName
    Scope.user (by decide)

/-- C1 counterexample: with `local-plugin@example-marketplace` blocklisted
with reason `"malware"`, `install` raises `PluginBlocked` whose reason is
`none`, not the entry's reason — the claim's "reason attached if present"
fails on the code. -/
theorem c1_reason_dropped :
    stBlocked.blocklist.plugins.map BlocklistPlugin.reason = [some exReason] ∧
    (install stBlocked (str "local-plugin") exMarketplaceName Scope.user).2
      = .error (.pluginBlocked (str "local-plugin@example-marketplace") none) ∧
    ¬ (install stBlocked (str "local-plugin") exMarketplaceName Scope.user).2
      = .error (.pluginBlocked (str "local-plugin@example-marketplace")
          (some exReason)) := by
  refine ⟨rfl, by decide, by decide⟩

/-- C3: for a plugin, marketplace and configured scope, after a successful
`install`, (i) `uninstall` of the same triple succeeds and returns the
scope's ledger to exactly its pre-install contents, and (ii) a second
`install` without an intervening uninstall fails with `AlreadyInstalled`. -/
theorem c3_install_uninstall (st : ManagerState) (p m : Str) (sc : Scope)
    (h : (install st p m sc).2 = .ok ()) :
    (uninstall (install st p m sc).1 p m sc).2 = .ok () ∧
    scopeLedger (uninstall (install st p m sc).1 p m sc).1 sc
      = scopeLedger st sc ∧
    (install (install st p m sc).1 p m sc).2
      = .error (.alreadyInstalled (plugin_key p m)) := by
  obtain ⟨hb, hm, ⟨man, hman, hp⟩, f, hf, hk, hst1⟩ := install_ok_inv st p m sc h
  set key := plugin_key p m with hkey
  set L := get_enabled_plugins f with hL
  set F1 := set_enabled_plugins f (dictSet L key true) with hF1
  have hsf1 : settings_for (install st p m sc).1 sc = some F1 := by
    rw [hst1]
    exact settings_for_setScopeFile_self st sc F1
  have hg1 : get_enabled_plugins F1 = dictSet L key true :=
    get_enabled_plugins_set f _
  have hc1 : containsKey (get_enabled_plugins F1) key = true := by
    rw [hg1]
    exact containsKey_dictSet_self L key true
  have herase : eraseKey (get_enabled_plugins F1) key = L := by
    rw [hg1, dictSet_not_contains L key true hk, eraseKey_append_single,
      eraseKey_of_not_contains L key hk]
  have hun : uninstall (install st p m sc).1 p m sc
      = (setScopeFile (install st p m sc).1 sc (set_enabled_plugins F1 L),
          .ok ()) := by
    unfold uninstall
    rw [hsf1]
    simp [hc1, herase]
  refine ⟨by rw [hun], ?_, ?_⟩
  · rw [hun]
    show ((settings_for (setScopeFile (install st p m sc).1 sc
        (set_enabled_plugins F1 L)) sc).map get_enabled_plugins)
      = (settings_for st sc).map get_enabled_plugins
    rw [settings_for_setScopeFile_self, hf]
    simp [get_enabled_plugins_set]
  · rw [hst1]
    have hb1 : is_blocked (setScopeFile st sc F1) p m = false := hb
    have hm1 : m ∈ (setScopeFile st sc F1).registry := hm
    have hman1 : get_marketplace_manifest (setScopeFile st sc F1) m
        = .ok man := hman
    have hsf1a : settings_for (setScopeFile st sc F1) sc = some F1 :=
      settings_for_setScopeFile_self st sc F1
    simp [install, hb1, hm1, hman1, hp, hsf1a, hc1]

theorem c3_install_uninstall_witness :
    (install st0 (str "local-plugin") exMarketplaceName Scope.user).2
        = .ok () ∧
    (uninstall (install st0 (str "local-plugin") exMarketplaceName
        Scope.user).1 (str "local-plugin") exMarketplaceName Scope.user).2
        = .ok () ∧
    scopeLedger (uninstall (install st0 (str "local-plugin")
        exMarketplaceName Scope.user).1 (str "local-plugin")
        exMarketplaceName Scope.user).1 Scope.user
      = scopeLedger st0 Scope.user ∧
    (install (install st0 (str "local-plugin") exMarketplaceName
        Scope.user).1 (str "local-plugin") exMarketplaceName Scope.user).2
      = .error (.alreadyInstalled
          (plugin_key (str "local-plugin") exMarketplaceName)) := by
  have h : (install st0 (str "local-plugin") exMarketplaceName Scope.user).2
      = .ok () := by decide
  obtain ⟨h1, h2, h3⟩ :=
    c3_install_uninstall st0 (str "local-plugin") exMarketplaceName
      Scope.user h
  exact ⟨h, h1, h2, h3⟩

theorem set_enabled_plugins_idem (f : FileContent) (d : Ledger) :
    set_enabled_plugins (set_enabled_plugins f d) d
      = set_enabled_plugins f d := by
  show FileContent.json (Json.obj (dictSet
      (dictSet (rawFields f) (str "enabledPlugins") (encodeLedger d))
      (str "enabledPlugins") (encodeLedger d)))
    = FileContent.json (Json.obj (dictSet (rawFields f)
      (str "enabledPlugins") (encodeLedger d)))
  rw [dictSet_dictSet_same]

theorem setScopeFile_setScopeFile_same (st : ManagerState) (sc : Scope)
    (f : FileContent) :
    setScopeFile (setScopeFile st sc f) sc f = setScopeFile st sc f := by
  unfold setScopeFile
  simp [dictSet_dictSet_same]

/-- C6: for a configured scope, `enable` and `disable` fail with
`NotInstalled` (touching nothing) when the key is absent from that scope's
ledger; when the key is present they succeed, setting its value to `true`
respectively `false`, and a second identical call is a legal no-op: it
succeeds and leaves the whole state exactly as after the first call. -/
theorem c6_enable_disable (st : ManagerState) (p m : Str) (sc : Scope)
    (f : FileContent) (hf : settings_for st sc = some f) :
    (containsKey (get_enabled_plugins f) (plugin_key p m) = false →
      enable st p m sc = (st, .error (.notInstalled (plugin_key p m))) ∧
      disable st p m sc = (st, .error (.notInstalled (plugin_key p m)))) ∧
    (containsKey (get_enabled_plugins f) (plugin_key p m) = true →
      (enable st p m sc).2 = .ok () ∧
      (disable st p m sc).2 = .ok () ∧
      (scopeLedger (enable st p m sc).1 sc).bind
          (fun L => lookupKey L (plugin_key p m)) = some true ∧
      (scopeLedger (disable st p m sc).1 sc).bind
          (fun L => lookupKey L (plugin_key p m)) = some false ∧
      enable (enable st p m sc).1 p m sc = ((enable st p m sc).1, .ok ()) ∧
      disable (disable st p m sc).1 p m sc
        = ((disable st p m sc).1, .ok ())) := by
  set key := plugin_key p m with hkey
  set L := get_enabled_plugins f with hL
  constructor
  · intro hk
    constructor
    · unfold enable
      rw [hf]
      simp [← hL, hk]
    · unfold disable
      rw [hf]
      simp [← hL, hk]
  · intro hk
    have hen : enable st p m sc
        = (setScopeFile st sc (set_enabled_plugins f (dictSet L key true)),
            .ok ()) := by
      unfold enable
      rw [hf]
      simp [← hL, hk]
    have hdis : disable st p m sc
        = (setScopeFile st sc (set_enabled_plugins f (dictSet L key false)),
            .ok ()) := by
      unfold disable
      rw [hf]
      simp [← hL, hk]
    refine ⟨by rw [hen], by rw [hdis], ?_, ?_, ?_, ?_⟩
    · rw [hen]
      show ((settings_for (setScopeFile st sc
          (set_enabled_plugins f (dictSet L key true))) sc).map
            get_enabled_plugins).bind (fun L' => lookupKey L' key) = some true
      rw [settings_for_setScopeFile_self]
      simp [get_enabled_plugins_set, lookupKey_dictSet_self]
    · rw [hdis]
      show ((settings_for (setScopeFile st sc
          (set_enabled_plugins f (dictSet L key false))) sc).map
            get_enabled_plugins).bind (fun L' => lookupKey L' key) = some false
      rw [settings_for_setScopeFile_self]
      simp [get_enabled_plugins_set, lookupKey_dictSet_self]
    · rw [hen]
      unfold enable
      rw [settings_for_setScopeFile_self]
      simp [get_enabled_plugins_set, containsKey_dictSet_self,
        dictSet_dictSet_same, set_enabled_plugins_idem,
        setScopeFile_setScopeFile_same]
    · rw [hdis]
      unfold disable
      rw [settings_for_setScopeFile_self]
      simp [get_enabled_plugins_set, containsKey_dictSet_self,
        dictSet_dictSet_same, set_enabled_plugins_idem,
        setScopeFile_setScopeFile_same]

theorem c6_enable_disable_witness :
    enable st0 (str "ghost") exMarketplaceName Scope.user
      = (st0, .error (.notInstalled
          (plugin_key (str "ghost") exMarketplaceName))) ∧
    (enable stInstalled (str "local-plugin") exMarketplaceName Scope.user).2
      = .ok () ∧
    (disable stInstalled (str "local-plugin") exMarketplaceName Scope.user).2
      = .ok () := by
  refine ⟨?_, ?_, ?_⟩
  · exact ((c6_enable_disable st0 (str "ghost") exMarketplaceName Scope.user
      (FileContent.json (Json.obj [])) rfl).1 (by decide)).1
  · exact ((c6_enable_disable stInstalled (str "local-plugin")
      exMarketplaceName Scope.user
      (FileContent.json (Json.obj [(str "enabledPlugins", Json.obj
        [(str "local-plugin@example-marketplace", Json.bool true)])]))
      rfl).2 (by decide)).1
  · exact (((c6_enable_disable stInstalled (str "local-plugin")
      exMarketplaceName Scope.user
      (FileContent.json (Json.obj [(str "enabledPlugins", Json.obj
        [(str "local-plugin@example-marketplace", Json.bool true)])]))
      rfl).2 (by decide)).2).1

/-- C8: across install, uninstall, enable and disable, every top-level
member of every scope's settings artifact other than `enabledPlugins`
round-trips untouched (and other scopes' artifacts are untouched
entirely). -/
theorem c8_siblings_preserved (op : MgrOp) (st : ManagerState) (p m : Str)
    (sc sc' : Scope) (k : Str) (hk : k ≠ str "enabledPlugins") :
    ((settings_for (runOp op st p m sc).1 sc').map
        (fun f => settingsKeyGet f k))
      = (settings_for st sc').map (fun f => settingsKeyGet f k) := by
  rcases op_state_shape op st p m sc with hsh | ⟨f, d, hf, hsh⟩
  · rw [hsh]
  · rw [hsh]
    by_cases hsc : sc' = sc
    · subst hsc
      rw [settings_for_setScopeFile_self, hf]
      simp [settingsKeyGet_set_enabled_plugins f d k hk]
    · rw [settings_for_setScopeFile_ne st sc sc' _ hsc]

theorem c8_siblings_preserved_witness :
    ((settings_for (runOp .installOp stSib (str "local-plugin")
        exMarketplaceName Scope.user).1 Scope.user).map
          (fun f => settingsKeyGet f (str "theme")))
      = (settings_for stSib Scope.user).map
          (fun f => settingsKeyGet f (str "theme")) :=
  c8_siblings_preserved .installOp stSib (str "local-plugin")
    exMarketplaceName Scope.user Scope.user (str "theme") (by decide)

/-- C2 (code evaluation at the failing input): installing the
github-sourced plugin succeeds and makes a scope hold the key, yet the
plugin cache stays empty — and, in general, neither `install` nor
`uninstall` ever touches the plugin cache, so the claimed "cache entry
exists iff some scope holds the key" equivalence fails on the code. -/
theorem c2_plugin_cache_never_touched :
    ((install st0 (str "github-plugin") exMarketplaceName Scope.user).2
        = .ok () ∧
      is_installed (install st0 (str "github-plugin") exMarketplaceName
        Scope.user).1 (str "github-plugin") exMarketplaceName = true ∧
      (install st0 (str "github-plugin") exMarketplaceName
        Scope.user).1.pluginCache = []) ∧
    (∀ (op : MgrOp) (st : ManagerState) (p m : Str) (sc : Scope),
      (runOp op st p m sc).1.pluginCache = st.pluginCache) := by
  constructor
  · exact ⟨by decide, by decide, by decide⟩
  · intro op st p m sc
    rcases op_state_shape op st p m sc with hsh | ⟨f, d, _, hsh⟩
    · rw [hsh]
    · rw [hsh, setScopeFile_pluginCache]

/-- C4 (code evaluation at the failing input): installing the npm- and
pip-sourced plugins does not raise any fetch error — both calls succeed
and write the key into the scope's ledger. -/
theorem c4_npm_pip_install_succeeds :
    (install st0 (str "npm-plugin") exMarketplaceName Scope.user).2
        = .ok () ∧
    scopeLedger (install st0 (str "npm-plugin") exMarketplaceName
        Scope.user).1 Scope.user
      = some [(str "npm-plugin@example-marketplace", true)] ∧
    (install st0 (str "pip-plugin") exMarketplaceName Scope.user).2
        = .ok () ∧
    scopeLedger (install st0 (str "pip-plugin") exMarketplaceName
        Scope.user).1 Scope.user
      = some [(str "pip-plugin@example-marketplace", true)] := by
  refine ⟨by decide, by decide, by decide, by decide⟩

/-- C7 (amended): a `.git`-suffixed string resolves to a git (`URLSource`)
source; a string matching the `owner/repo` shorthand resolves to a github
source only when it does not end in `.git` (the `.git` check is applied
first); any other string resolves to an http source. -/
theorem c7_detect_rules (s : Str) :
    (endsWithGit s = true → detect s = .url s none none) ∧
    (endsWithGit s = false → matchGithubShorthand s = true →
      detect s = .github s none none) ∧
    (endsWithGit s = false → matchGithubShorthand s = false →
      detect s = .http s) := by
  refine ⟨fun h => by simp [detect, h],
    fun h1 h2 => by simp [detect, h1, h2],
    fun h1 h2 => by simp [detect, h1, h2]⟩

theorem c7_detect_rules_witness :
    detect (str "https://example.com/repo.git")
        = .url (str "https://example.com/repo.git") none none ∧
    detect (str "owner/repo") = .github (str "owner/repo") none none ∧
    detect (str "https://example.com/marketplace.json")
        = .http (str "https://example.com/marketplace.json") :=
  ⟨(c7_detect_rules _).1 (by decide),
   (c7_detect_rules _).2.1 (by decide) (by decide),
   (c7_detect_rules _).2.2 (by decide) (by decide)⟩

/-- C7 counterexample: `"octo/tools.git"` matches the github-shorthand
regex `^[\w.-]+/[\w.-]+$`, yet `_detect` resolves it to a git (`URLSource`)
source, not a github source — the `.git` check runs first, so the claim's
"shorthand resolves to github" rule fails on it. -/
theorem c7_shorthand_with_git_suffix :
    matchGithubShorthand (str "octo/tools.git") = true ∧
    detect (str "octo/tools.git") = .url (str "octo/tools.git") none none ∧
    (detect (str "octo/tools.git")).isGithub = false := by
  refine ⟨by decide, by decide, by decide⟩

theorem mkUpdateResult_spec (p m : Str) (cur lat : Option Str) :
    (((mkUpdateResult p m cur lat).current_version = none ∨
        (mkUpdateResult p m cur lat).latest_version = none) →
      (mkUpdateResult p m cur lat).has_update = false) ∧
    (∀ cv lv, (mkUpdateResult p m cur lat).current_version = some cv →
      (mkUpdateResult p m cur lat).latest_version = some lv →
      (mkUpdateResult p m cur lat).has_update = decide (lv ≠ cv)) := by
  cases cur with
  | none =>
    cases lat with
    | none => exact ⟨fun _ => rfl, fun cv lv hcv _ => by simp [mkUpdateResult] at hcv⟩
    | some l => exact ⟨fun _ => rfl, fun cv lv hcv _ => by simp [mkUpdateResult] at hcv⟩
  | some c =>
    cases lat with
    | none => exact ⟨fun _ => rfl, fun cv lv _ hlv => by simp [mkUpdateResult] at hlv⟩
    | some l =>
      constructor
      · intro hor
        rcases hor with hc | hc <;> simp [mkUpdateResult] at hc
      · intro cv lv hcv hlv
        simp only [mkUpdateResult, Option.some.injEq] at hcv hlv
        subst hcv
        subst hlv
        rfl

/-- C5: whenever `check_update` returns a result, `has_update` is `false`
if the current (on-disk) or latest (manifest) version is absent, and when
both are present `has_update` is exactly the raw string inequality
`latest != current` — no semantic-version ordering. -/
theorem c5_check_update (st : ManagerState) (p m : Str)
    (r : UpdateCheckResult) (h : check_update st p m = .ok r) :
    ((r.current_version = none ∨ r.latest_version = none) →
      r.has_update = false) ∧
    (∀ cv lv, r.current_version = some cv → r.latest_version = some lv →
      r.has_update = decide (lv ≠ cv)) := by
  unfold check_update at h
  split at h
  · exact absurd h (by simp)
  · split at h
    · simp only [Except.ok.injEq] at h
      subst h
      exact ⟨fun _ => rfl, fun cv lv hcv _ => by simp at hcv⟩
    · simp only [Except.ok.injEq] at h
      subst h
      exact mkUpdateResult_spec p m _ _

theorem c5_check_update_witness : exUpdateResult.has_update = false :=
  (c5_check_update st0 (str "local-plugin") exMarketplaceName exUpdateResult
    (by decide)).1 (Or.inl rfl)

/-- C9: a settings file that is missing, unreadable, invalid JSON, not an
object, or whose `enabledPlugins` member is not an object reads as the
empty map; a missing or invalid blocklist file reads as the default
blocklist (epoch timestamp, no blocked plugins), and such a blocklist
blocks nothing — no read of either artifact raises. -/
theorem c9_corrupt_reads_default (f g : FileContent)
    (hf : badSettingsFile f) (hg : badBlocklistFile g) :
    get_enabled_plugins f = [] ∧
    get_blocklist_file g = default_blocklist ∧
    (∀ (st : ManagerState) (p m : Str),
      st.blocklist = get_blocklist_file g → is_blocked st p m = false) := by
  have h1 : get_enabled_plugins f = [] := by
    rcases hf with h | h | h | ⟨v, hfe, hv⟩ | ⟨fields, v, hfe, hget, hv⟩
    · rw [h]; rfl
    · rw [h]; rfl
    · rw [h]; rfl
    · subst hfe
      cases v with
      | obj l => simp [Json.isObj] at hv
      | null => rfl
      | bool b => rfl
      | num n => rfl
      | str s => rfl
      | arr l => rfl
    · subst hfe
      show (match lookupKey fields (str "enabledPlugins") with
        | some (.obj pl) => pl.map (fun kv => (kv.1, kv.2.truthy))
        | _ => ([] : Ledger)) = []
      rw [hget]
      cases v with
      | obj l => simp [Json.isObj] at hv
      | null => rfl
      | bool b => rfl
      | num n => rfl
      | str s => rfl
      | arr l => rfl
  have h2 : get_blocklist_file g = default_blocklist := by
    rcases hg with h | h | h | ⟨v, hge, hv⟩ | ⟨fields, hge, hval⟩
    · rw [h]; rfl
    · rw [h]; rfl
    · rw [h]; rfl
    · subst hge
      cases v with
      | obj l => simp [Json.isObj] at hv
      | null => rfl
      | bool b => rfl
      | num n => rfl
      | str s => rfl
      | arr l => rfl
    · subst hge
      show (validateBlocklist fields).getD default_blocklist
        = default_blocklist
      rw [hval]
      rfl
  refine ⟨h1, h2, ?_⟩
  intro st p m hbl
  unfold is_blocked
  rw [hbl, h2]
  rfl

theorem c9_corrupt_reads_default_witness :
    get_enabled_plugins .missing = [] ∧
    get_blocklist_file .invalidJson = default_blocklist :=
  ⟨(c9_corrupt_reads_default .missing .invalidJson (Or.inl rfl)
      (Or.inr (Or.inr (Or.inl rfl)))).1,
   (c9_corrupt_reads_default .missing .invalidJson (Or.inl rfl)
      (Or.inr (Or.inr (Or.inl rfl)))).2.1⟩

theorem lookupKey_of_mem_nodup {κ α : Type} [DecidableEq κ]
    (l : List (κ × α)) (k : κ) (v : α)
    (hnd : (l.map Prod.fst).Nodup) (h : (k, v) ∈ l) :
    lookupKey l k = some v := by
  induction l with
  | nil => cases h
  | cons kv rest ih =>
    rw [List.map_cons] at hnd
    have hnd' := List.nodup_cons.mp hnd
    rcases List.mem_cons.mp h with he | hm
    · rw [← he]
      simp [lookupKey]
    · have hk : kv.1 ≠ k := by
        intro hkk
        have hmem : k ∈ rest.map Prod.fst :=
          List.mem_map.mpr ⟨(k, v), hm, rfl⟩
        rw [← hkk] at hmem
        exact hnd'.1 hmem
      rw [lookupKey, if_neg hk]
      exact ih hnd'.2 hm

theorem iter_scopes_eq (full S : List (Scope × FileContent))
    (hsub : ∀ scf ∈ S, lookupKey full scf.1 = some scf.2) :
    ((S.map Prod.fst).flatMap (fun sc =>
      match lookupKey full sc with
      | none => []
      | some f => scopeRecords sc f))
    = S.flatMap (fun scf => scopeRecords scf.1 scf.2) := by
  induction S with
  | nil => rfl
  | cons x xs ih =>
    rw [List.map_cons, List.flatMap_cons, List.flatMap_cons,
      hsub x (List.mem_cons_self x xs),
      ih (fun scf h => hsub scf (List.mem_cons_of_mem x h))]

/-- Under the (always true for a Python dict) assumption that the
configured scopes are distinct, `list_installed` for `"all"` is the
concatenation of each configured scope's records, in configuration
order. -/
theorem list_installed_eq_flatMap (st : ManagerState)
    (hnd : (st.settings.map Prod.fst).Nodup) :
    list_installed st none
      = st.settings.flatMap (fun scf => scopeRecords scf.1 scf.2) :=
  iter_scopes_eq st.settings st.settings
    (fun scf h => lookupKey_of_mem_nodup st.settings scf.1 scf.2 hnd h)

theorem scopeRecords_mem_intro (sc : Scope) (f : FileContent) (n mm : Str)
    (b : Bool) (hin : (n ++ '@' :: mm, b) ∈ get_enabled_plugins f)
    (hmm : '@' ∉ mm) :
    ({ name := n, marketplace := mm, enabled := b, scope := sc }
      : InstalledPlugin) ∈ scopeRecords sc f := by
  unfold scopeRecords
  apply List.mem_filterMap.mpr
  refine ⟨(n ++ '@' :: mm, b), hin, ?_⟩
  have hat : '@' ∈ (n ++ '@' :: mm) :=
    List.mem_append.mpr (Or.inr (List.mem_cons_self _ _))
  show (if decide ('@' ∈ (n ++ '@' :: mm)) = true then
      (rsplitLast '@' (n ++ '@' :: mm)).map (fun nm =>
        ({ name := nm.1, marketplace := nm.2, enabled := b, scope := sc }
          : InstalledPlugin))
    else none)
    = some { name := n, marketplace := mm, enabled := b, scope := sc }
  rw [if_pos (by simp [hat]), rsplitLast_append '@' n mm hmm]
  rfl

theorem scopeRecords_mem_elim (sc : Scope) (f : FileContent)
    (r : InstalledPlugin) (hr : r ∈ scopeRecords sc f) :
    '@' ∉ r.marketplace ∧ r.scope = sc ∧
    (r.name ++ '@' :: r.marketplace, r.enabled) ∈ get_enabled_plugins f := by
  unfold scopeRecords at hr
  obtain ⟨kv, hkv, hbody⟩ := List.mem_filterMap.mp hr
  by_cases hat : decide ('@' ∈ kv.1) = true
  · rw [if_pos hat] at hbody
    cases hsp : rsplitLast '@' kv.1 with
    | none =>
      rw [hsp] at hbody
      exact absurd hbody (by simp)
    | some nm =>
      rw [hsp] at hbody
      cases nm with
      | mk a b' =>
        simp only [Option.map, Option.some.injEq] at hbody
        obtain ⟨hs, hnb⟩ := rsplitLast_eq_some '@' kv.1 a b' hsp
        subst hbody
        refine ⟨hnb, rfl, ?_⟩
        show (a ++ '@' :: b', kv.2) ∈ get_enabled_plugins f
        rw [← hs]
        exact hkv
  · rw [if_neg hat] at hbody
    exact absurd hbody (by simp)

theorem scopeRecords_length (sc : Scope) (f : FileContent) :
    (scopeRecords sc f).length
      = ((get_enabled_plugins f).filter
          (fun kv => decide ('@' ∈ kv.1))).length := by
  unfold scopeRecords
  generalize get_enabled_plugins f = L
  induction L with
  | nil => rfl
  | cons kv rest ih =>
    simp only [List.filterMap_cons, List.filter_cons]
    by_cases hmem : '@' ∈ kv.1
    · have h1 : decide ('@' ∈ kv.1) = true := by simpa using hmem
      have hs := (rsplitLast_isSome_iff '@' kv.1).mpr hmem
      cases hsp : rsplitLast '@' kv.1 with
      | none =>
        rw [hsp] at hs
        exact absurd hs (by simp)
      | some nm =>
        rw [if_pos h1, if_pos h1]
        show ((⟨nm.1, nm.2, kv.2, sc⟩ : InstalledPlugin) ::
            List.filterMap (fun kv =>
              if decide ('@' ∈ kv.1) = true then
                (rsplitLast '@' kv.1).map (fun nm =>
                  (⟨nm.1, nm.2, kv.2, sc⟩ : InstalledPlugin))
              else none) rest).length
          = (kv :: List.filter (fun kv => decide ('@' ∈ kv.1)) rest).length
        rw [List.length_cons, List.length_cons, ih]
    · have h1 : ¬(decide ('@' ∈ kv.1) = true) := by simpa using hmem
      rw [if_neg h1, if_neg h1]
      exact ih

/-- C10: `list_installed` splits each ledger key on its LAST `"@"`
(a key `n ++ "@" ++ mm` with `mm` free of `"@"` yields the record
`(n, mm)` — e.g. `"a@b@c"` yields plugin `"a@b"` in marketplace `"c"`);
keys without `"@"` never contribute a record (the returned list has
exactly one record per `"@"`-containing ledger entry); and every returned
record carries the key, enabled flag and scope of a ledger entry of a
configured scope. -/
theorem c10_list_installed (st : ManagerState)
    (hnd : (st.settings.map Prod.fst).Nodup) :
    (∀ sc f n mm b, (sc, f) ∈ st.settings →
      (n ++ '@' :: mm, b) ∈ get_enabled_plugins f → '@' ∉ mm →
      ({ name := n, marketplace := mm, enabled := b, scope := sc }
        : InstalledPlugin) ∈ list_installed st none) ∧
    (∀ r, r ∈ list_installed st none →
      '@' ∉ r.marketplace ∧ ∃ f, (r.scope, f) ∈ st.settings ∧
        (r.name ++ '@' :: r.marketplace, r.enabled)
          ∈ get_enabled_plugins f) ∧
    (list_installed st none).length
      = (st.settings.map (fun scf =>
          ((get_enabled_plugins scf.2).filter
            (fun kv => decide ('@' ∈ kv.1))).length)).sum := by
  have heq := list_installed_eq_flatMap st hnd
  refine ⟨?_, ?_, ?_⟩
  · intro sc f n mm b hsf hin hmm
    rw [heq]
    exact List.mem_flatMap.mpr
      ⟨(sc, f), hsf, scopeRecords_mem_intro sc f n mm b hin hmm⟩
  · intro r hr
    rw [heq] at hr
    obtain ⟨scf, hscf, hrs⟩ := List.mem_flatMap.mp hr
    obtain ⟨hnm, hsc, hmem⟩ := scopeRecords_mem_elim scf.1 scf.2 r hrs
    refine ⟨hnm, scf.2, ?_, hmem⟩
    rw [hsc]
    exact hscf
  · rw [heq, List.length_flatMap]
    congr 1
    exact List.map_congr_left (fun scf _ => scopeRecords_length scf.1 scf.2)

theorem c10_list_installed_witness :
    ({ name := str "a@b", marketplace := str "c", enabled := true,
       scope := Scope.user } : InstalledPlugin)
        ∈ list_installed stMulti none ∧
    (list_installed stMulti none).length = 1 := by
  have h := c10_list_installed stMulti (by decide)
  constructor
  · exact h.1 Scope.user (FileContent.json (Json.obj
      [(str "enabledPlugins", Json.obj
        [ (str "a@b@c", Json.bool true),
          (str "noseparator", Json.bool false) ])]))
      (str "a@b") (str "c") true (List.mem_singleton.mpr rfl)
      (by decide) (by decide)
  · rw [h.2.2]
    decide
